import Mathlib

/-!
Shallow embedding of the file-name semantic search pipeline
(`file_name_semantic_search.py` and `file_name_search_app.py`):
directory indexing into a persistent collection of
(id, document, metadata) records, nearest-neighbor search over that
collection, web-form parsing, and the open/resolve endpoint.

Machine integers are modelled as `Nat` reduced mod 2^32 where the source
relies on 32-bit wraparound (the SHA-1 hash of `hashlib.sha1`).
The external vector store (ChromaDB) is modelled as an association list
of records plus an abstract query function; the filesystem is an
abstract structure of predicates.
-/

namespace FileNameSearch

/-! ### SHA-1 (`hashlib.sha1(...).hexdigest()` on UTF-8 bytes) -/

/-- Reduce mod 2^32: all SHA-1 word arithmetic is on 32-bit words. -/
def w32 (n : Nat) : Nat := n % 4294967296

/-- Left-rotate a 32-bit word by `s` (0 < s < 32). -/
def rotl (x s : Nat) : Nat := w32 (x <<< s) ||| (x >>> (32 - s))

/-- UTF-8 encoding of one character, as byte values. -/
def utf8Char (c : Char) : List Nat :=
  let n := c.toNat
  if n < 128 then [n]
  else if n < 2048 then
    [192 ||| (n >>> 6), 128 ||| (n &&& 63)]
  else if n < 65536 then
    [224 ||| (n >>> 12), 128 ||| ((n >>> 6) &&& 63), 128 ||| (n &&& 63)]
  else
    [240 ||| (n >>> 18), 128 ||| ((n >>> 12) &&& 63),
     128 ||| ((n >>> 6) &&& 63), 128 ||| (n &&& 63)]

/-- UTF-8 bytes of a string (`str.encode("utf-8")`). -/
def utf8Bytes (s : String) : List Nat :=
  (s.data.map utf8Char).flatten

/-- Big-endian 8-byte encoding of the 64-bit message bit length. -/
def beBytes8 (n : Nat) : List Nat :=
  [(n >>> 56) &&& 255, (n >>> 48) &&& 255, (n >>> 40) &&& 255, (n >>> 32) &&& 255,
   (n >>> 24) &&& 255, (n >>> 16) &&& 255, (n >>> 8) &&& 255, n &&& 255]

/-- SHA-1 padding: append 0x80, zero bytes to 56 mod 64, then the bit length. -/
def sha1pad (msg : List Nat) : List Nat :=
  let ml := msg.length
  let z := (119 - ml % 64) % 64
  msg ++ [128] ++ List.replicate z 0 ++ beBytes8 (8 * ml)

/-- Group bytes into big-endian 32-bit words. -/
def toWordsBE : List Nat → List Nat
  | b0 :: b1 :: b2 :: b3 :: rest =>
      (b0 * 16777216 + b1 * 65536 + b2 * 256 + b3) :: toWordsBE rest
  | _ => []

/-- Message-schedule extension, keeping the newest word first:
`w[i] = rotl1 (w[i-3] xor w[i-8] xor w[i-14] xor w[i-16])`. -/
def extendLoop : Nat → List Nat → List Nat
  | 0, acc => acc
  | n + 1, acc =>
      let t := rotl (((acc.get? 2).getD 0) ^^^ ((acc.get? 7).getD 0) ^^^
                     ((acc.get? 13).getD 0) ^^^ ((acc.get? 15).getD 0)) 1
      extendLoop n (t :: acc)

/-- One SHA-1 round on the state (a, b, c, d, e) with schedule word `wi`. -/
def sha1Round (i : Nat) (st : Nat × Nat × Nat × Nat × Nat) (wi : Nat) :
    Nat × Nat × Nat × Nat × Nat :=
  let a := st.1; let b := st.2.1; let c := st.2.2.1; let d := st.2.2.2.1; let e := st.2.2.2.2
  let fk : Nat × Nat :=
    if i < 20 then ((b &&& c) ||| ((b ^^^ 4294967295) &&& d), 1518500249)
    else if i < 40 then (b ^^^ c ^^^ d, 1859775393)
    else if i < 60 then ((b &&& c) ||| (b &&& d) ||| (c &&& d), 2400959708)
    else (b ^^^ c ^^^ d, 3395469782)
  let temp := w32 (rotl a 5 + fk.1 + e + fk.2 + wi)
  (temp, a, rotl b 30, c, d)

/-- Process one 64-byte chunk, updating the running hash words. -/
def processChunk (h : Nat × Nat × Nat × Nat × Nat) (chunk : List Nat) :
    Nat × Nat × Nat × Nat × Nat :=
  let ws0 := toWordsBE chunk
  let ws := (extendLoop 64 ws0.reverse).reverse
  let st := ((List.range 80).zip ws).foldl (fun st p => sha1Round p.1 st p.2) h
  (w32 (h.1 + st.1), w32 (h.2.1 + st.2.1), w32 (h.2.2.1 + st.2.2.1),
   w32 (h.2.2.2.1 + st.2.2.2.1), w32 (h.2.2.2.2 + st.2.2.2.2))

/-- Split a byte list into 64-byte chunks (fuel-indexed; fuel ≥ length suffices). -/
def chunksAux : Nat → List Nat → List (List Nat)
  | _, [] => []
  | 0, _ => []
  | n + 1, l => l.take 64 :: chunksAux n (l.drop 64)

def chunks64 (l : List Nat) : List (List Nat) := chunksAux l.length l

/-- Lowercase hex digit. -/
def hexDigit (n : Nat) : Char :=
  if n < 10 then Char.ofNat (48 + n) else Char.ofNat (87 + n)

/-- Lowercase 8-digit hex rendering of a 32-bit word. -/
def hex8 (n : Nat) : String :=
  ⟨[hexDigit ((n >>> 28) &&& 15), hexDigit ((n >>> 24) &&& 15),
    hexDigit ((n >>> 20) &&& 15), hexDigit ((n >>> 16) &&& 15),
    hexDigit ((n >>> 12) &&& 15), hexDigit ((n >>> 8) &&& 15),
    hexDigit ((n >>> 4) &&& 15), hexDigit (n &&& 15)]⟩

/-- SHA-1 hex digest of a byte list. -/
def sha1hex (msg : List Nat) : String :=
  let h := (chunks64 (sha1pad msg)).foldl processChunk
    (1732584193, 4023233417, 2562383102, 271733878, 3285377520)
  hex8 h.1 ++ hex8 h.2.1 ++ hex8 h.2.2.1 ++ hex8 h.2.2.2.1 ++ hex8 h.2.2.2.2

/-! ### Python string primitives used by the sources -/

/-- Characters Python `str.strip()` removes (ASCII whitespace). -/
def isPySpace (c : Char) : Bool :=
  c = ' ' || c = '\t' || c = '\n' || c = '\x0d' || c = '\x0b' || c = '\x0c'

/-- `str.strip()` on a character list. -/
def stripChars (l : List Char) : List Char :=
  ((l.dropWhile isPySpace).reverse.dropWhile isPySpace).reverse

/-- Python `str.strip()`. -/
def pyStrip (s : String) : String := ⟨stripChars s.data⟩

/-- Python `str.replace("\\", "/")` (single-character replacement). -/
def pyReplaceBackslash (s : String) : String :=
  ⟨s.data.map (fun c => if c = '\\' then '/' else c)⟩

/-- `str.lstrip('.')`: drop all leading dots. -/
def lstripDot : List Char → List Char
  | [] => []
  | c :: t => if c = '.' then lstripDot t else c :: t

/-- The characters strictly after the last `'.'` of the list, if any dot occurs. -/
def afterLastDot : List Char → Option (List Char)
  | [] => none
  | c :: t =>
      match afterLastDot t with
      | some s => some s
      | none => if c = '.' then some t else none

/-- `pathlib.PurePath.suffix` on a file name: the part from the last dot on,
provided that dot is neither the first nor the last character (`0 < i < len-1`
in the CPython source); otherwise empty. -/
def pySuffix (name : List Char) : List Char :=
  match afterLastDot name with
  | none => []
  | some s =>
      if 0 < name.length - s.length - 1 ∧ s ≠ [] then '.' :: s else []

/-- `file_path.suffix.lstrip('.')` — the extension stored and embedded. -/
def extensionOf (name : String) : String := ⟨lstripDot (pySuffix name.data)⟩

/-- Value of a nonempty all-digit character list, else `none`. -/
def digitsVal (l : List Char) : Option Nat :=
  if l ≠ [] ∧ l.all (fun c => '0' ≤ c && c ≤ '9') then
    some (l.foldl (fun a c => 10 * a + (c.toNat - 48)) 0)
  else none

/-- Python `int(str)`: optional surrounding whitespace, optional sign, digits;
`none` models `ValueError`.  (Numeric-literal underscores are not modelled.) -/
def pyInt? (s : String) : Option Int :=
  match stripChars s.data with
  | '+' :: t => (digitsVal t).map Int.ofNat
  | '-' :: t => (digitsVal t).map (fun n => -(n : Int))
  | t => (digitsVal t).map Int.ofNat

/-- Python `x or dflt` for an optional string field: `None` and `""` are falsy. -/
def pyOr (v : Option String) (dflt : String) : String :=
  match v with
  | none => dflt
  | some s => if s = "" then dflt else s

/-- Split a character list at `'/'` (used to detect `..` traversal segments). -/
def splitSlash : List Char → List (List Char)
  | [] => [[]]
  | c :: t =>
      let r := splitSlash t
      if c = '/' then [] :: r
      else
        match r with
        | h :: t2 => (c :: h) :: t2
        | [] => [[c]]

/-- A relative path contains a `..` traversal segment. -/
def hasTraversal (rel : String) : Bool :=
  (splitSlash rel.data).any (fun seg => seg = ['.', '.'])

/-! ### Data model: records and the collection store

The vector store's record state is an association list of
(id, document, metadata); `upsert` is ChromaDB's insert-or-replace keyed
by id, `delete` removes by id, `get` enumerates/looks up metadata. -/

structure Metadata where
  file_name : String
  relative_path : String
  extension : String
deriving DecidableEq, Repr

/-- One file from a directory scan: its final component (`file_path.name`) and
`str(file_path.relative_to(base))` before separator canonicalization. -/
structure FileEntry where
  name : String
  rel : String
deriving DecidableEq, Repr

abbrev CollectionState := List (String × String × Metadata)

def getIds (c : CollectionState) : List String := c.map (·.1)

/-- `collection.get(ids=[i])`, metadata only. -/
def getById (c : CollectionState) (i : String) : Option Metadata :=
  (c.find? (fun r => r.1 = i)).map (fun r => r.2.2)

/-- Insert-or-replace one record keyed by id. -/
def upsertOne (c : CollectionState) (i : String) (doc : String) (m : Metadata) :
    CollectionState :=
  if c.any (fun r => r.1 = i) then
    c.map (fun r => if r.1 = i then (i, doc, m) else r)
  else
    c ++ [(i, doc, m)]

/-- `collection.upsert(ids=..., documents=..., metadatas=...)` over parallel rows. -/
def upsert (c : CollectionState) (rows : List (String × String × Metadata)) :
    CollectionState :=
  rows.foldl (fun acc row => upsertOne acc row.1 row.2.1 row.2.2) c

/-- `collection.delete(ids=...)`. -/
def deleteIds (c : CollectionState) (ids : List String) : CollectionState :=
  c.filter (fun r => ¬ ids.contains r.1)

/-! ### Indexer (`index_file_names`) -/

/-- `rel_path = str(file_path.relative_to(base)).replace("\\", "/")`. -/
def rel_path (f : FileEntry) : String := pyReplaceBackslash f.rel

/-- The synthesized document text `content` of `index_file_names`. -/
def content (f : FileEntry) : String :=
  "file name " ++ f.name ++ " path " ++ rel_path f ++ " extension " ++ extensionOf f.name

/-- `item_id = hashlib.sha1(rel_path.encode("utf-8")).hexdigest()`. -/
def item_id (rel : String) : String := sha1hex (utf8Bytes rel)

/-- The (id, document, metadata) row built per file by `index_file_names`. -/
def recordOf (f : FileEntry) : String × String × Metadata :=
  (item_id (rel_path f), content f, ⟨f.name, rel_path f, extensionOf f.name⟩)

/-- Abstract filesystem: `Path(...).expanduser().resolve()`, existence and kind
tests, and `base.glob(pattern)` filtered to regular files (already yielding each
file's name and base-relative path). -/
structure FSModel where
  resolve : String → String
  pathExists : String → Bool
  isDir : String → Bool
  isFile : String → Bool
  listFiles : String → Bool → List FileEntry

/-- `index_file_names(collection, directory, recursive, clear_first)`:
directory check, optional clear of all existing ids, scan, batch upsert;
the raised `ValueError` is the `Except.error` case, in which the collection
is untouched. -/
def index_file_names (fs : FSModel) (collection : CollectionState)
    (directory : String) (recursive clear_first : Bool) :
    Except String (CollectionState × Nat) :=
  let base := fs.resolve directory
  if fs.pathExists base = false ∨ fs.isDir base = false then
    .error ("Directory does not exist: " ++ base)
  else
    let cleared :=
      if clear_first then
        let existing_ids := getIds collection
        if existing_ids ≠ [] then deleteIds collection existing_ids else collection
      else collection
    let files := fs.listFiles base recursive
    let rows := files.map recordOf
    let final := if rows ≠ [] then upsert cleared rows else cleared
    .ok (final, rows.length)

/-! ### Query engine (`search_file_names`) -/

/-- What `collection.query(query_texts=[q], n_results=k, include=[...])`
returns for the single query: parallel ids/distances/metadatas lists.
Scores are modelled over `Int` (the pass-through ordering and length claims
do not depend on the numeric carrier). -/
structure QueryResult where
  ids : List String
  distances : List Int
  metadatas : List Metadata

/-- The store's nearest-neighbor query, abstract: ChromaDB is an external
collaborator, constrained only by its interface contract. -/
abbrev CollQueryFn := String → Int → QueryResult

structure Hit where
  id : String
  score : Int
  file_name : String
  relative_path : String
  extension : String
deriving DecidableEq, Repr

/-- `search_file_names(collection, query, limit)`: delegates to the
collection's query and zips ids/distances/metadatas into hit dicts
(metadata fields are total here because the indexer always writes all
three keys, so the `.get(..., "")` defaults are unreachable). -/
def search_file_names (query : CollQueryFn) (q : String) (limit : Int) :
    List Hit :=
  let results := query q limit
  let triples := results.ids.zip (results.distances.zip results.metadatas)
  triples.map (fun t =>
    ⟨t.1, t.2.1, t.2.2.file_name, t.2.2.relative_path, t.2.2.extension⟩)

/-! ### Web form handling (`file_name_search_app.index`) -/

/-- The route's limit parsing:
`raw_limit = (request.form.get("limit") or "10").strip()` then
`max(1, min(100, int(raw_limit)))`, falling back to 10 on `ValueError`. -/
def limitFromForm (raw : Option String) : Int :=
  let raw_limit := pyStrip (pyOr raw "10")
  match pyInt? raw_limit with
  | some n => max 1 (min 100 n)
  | none => 10

/-- The route's search action: `query = request.form.get("query", "").strip()`;
`ValueError("Query is required for search.")` if empty, else
`search_file_names` with the parsed limit. -/
def webSearch (queryFn : CollQueryFn) (queryField limitField : Option String) :
    Except String (List Hit) :=
  let q := pyStrip (queryField.getD "")
  let limit := limitFromForm limitField
  if q = "" then .error "Query is required for search."
  else .ok (search_file_names queryFn q limit)

/-! ### Path resolver (`open_file` and `get_hit_by_id`) -/

/-- The hit dict consumed by `open_file`, including the reconstructed
absolute path. -/
structure HitFull where
  id : String
  file_name : String
  relative_path : String
  extension : String
  absolute_path : String
deriving DecidableEq, Repr

/-- Modelled from the spec: `get_hit_by_id` is imported by the web app from
`file_name_semantic_search` but absent from the sources.  Per the spec's Path
Resolver: it looks up metadata for the id via `get({id})`, yielding nothing
when absent, and reconstructs the absolute path by joining the originally
scanned root (spec: "must be supplied or recorded at index time") with the
stored `relative_path`. -/
def get_hit_by_id (root : String) (c : CollectionState) (doc_id : String) :
    Option HitFull :=
  (getById c doc_id).map (fun m =>
    ⟨doc_id, m.file_name, m.relative_path, m.extension,
     root ++ "/" ++ m.relative_path⟩)

/-- Outcome of the `/open/<doc_id>` route: `abort(404, description=...)`
or `send_file(path)`. -/
inductive OpenResult where
  | notFound (description : String)
  | sendFile (path : String)
deriving DecidableEq, Repr

/-- `open_file(doc_id)`: look up the hit; 404 if absent; 404 if the stripped
absolute path is empty, does not exist, or is not a regular file; otherwise
stream the file. -/
def open_file (fs : FSModel) (root : String) (c : CollectionState)
    (doc_id : String) : OpenResult :=
  match get_hit_by_id root c doc_id with
  | none => .notFound "Indexed file not found."
  | some hit =>
      let absolute_path := pyStrip hit.absolute_path
      if absolute_path = "" ∨ fs.pathExists absolute_path = false
          ∨ fs.isFile absolute_path = false then
        .notFound "File path no longer exists."
      else
        .sendFile absolute_path

/-! ### Claim statements under test (for refutation) and concrete test doubles -/

/-- The safety claim on the open endpoint, as stated: a returned handle means
the resolved path was verified to exist, to be a regular file, and the stored
relative path carries no `..` traversal out of the scanned root. -/
def resolveVerifiesContainment : Prop :=
  ∀ (fs : FSModel) (root : String) (c : CollectionState) (doc_id p : String)
    (m : Metadata),
    open_file fs root c doc_id = .sendFile p →
    getById c doc_id = some m →
    fs.pathExists p = true ∧ fs.isFile p = true ∧
      hasTraversal m.relative_path = false

/-- The validation claim on search, stated observationally: if an empty
query text is rejected before the collection is consulted and the limit
actually used is always clamped into 1..100, then the output of
`search_file_names` can depend on the store's query function only through
its values at nonempty texts and limits in 1..100. -/
def searchValidatesAndClamps : Prop :=
  ∀ (q₁ q₂ : CollQueryFn) (t : String) (l : Int),
    (∀ s k, s ≠ "" → 1 ≤ k → k ≤ 100 → q₁ s k = q₂ s k) →
    search_file_names q₁ t l = search_file_names q₂ t l

/-- Store double that answers only the empty query at limit 0. -/
def qA : CollQueryFn := fun s k =>
  if s = "" ∧ k = 0 then ⟨["z"], [5], [⟨"z", "z", ""⟩]⟩ else ⟨[], [], []⟩

/-- Store double that always answers nothing. -/
def qB : CollQueryFn := fun _ _ => ⟨[], [], []⟩

/-- Store double with two hits at ascending distances. -/
def qW : CollQueryFn := fun _ _ =>
  ⟨["h1", "h2"], [1, 2], [⟨"a.txt", "a.txt", "txt"⟩, ⟨"b.md", "b.md", "md"⟩]⟩

/-- Filesystem double: a root `/r` holding the single regular file `/r/a.txt`. -/
def fsW : FSModel :=
  ⟨fun s => s, fun s => s = "/r" ∨ s = "/r/a.txt", fun s => s = "/r",
   fun s => s = "/r/a.txt", fun b _ => if b = "/r" then [⟨"a.txt", "a.txt"⟩] else []⟩

/-- Collection double holding one record under the literal id `x`. -/
def cW : CollectionState := [("x", "doc", ⟨"a.txt", "a.txt", "txt"⟩)]

/-- Filesystem double where only the traversal target
`/data/../secret` exists, as a regular file. -/
def fs1 : FSModel :=
  ⟨fun s => s, fun s => s = "/data/../secret", fun _ => false,
   fun s => s = "/data/../secret", fun _ _ => []⟩

/-- Collection double whose stored relative path contains a `..` segment. -/
def c1 : CollectionState := [("x", "doc", ⟨"secret", "../secret", ""⟩)]

/-- Filesystem double: an existing directory `/e` containing no files. -/
def fsE : FSModel :=
  ⟨fun s => s, fun s => s = "/e", fun s => s = "/e", fun _ => false, fun _ _ => []⟩

/-- Filesystem double on which nothing exists. -/
def fsN : FSModel :=
  ⟨fun s => s, fun _ => false, fun _ => false, fun _ => false, fun _ _ => []⟩

/-- The single scanned file used by the clear-semantics counterexample. -/
def f0 : FileEntry := ⟨"a.txt", "a.txt"⟩

/-- Filesystem double: directory `/d` holding exactly `a.txt`. -/
def fs0 : FSModel :=
  ⟨fun s => s, fun s => s = "/d", fun s => s = "/d", fun _ => false,
   fun b _ => if b = "/d" then [f0] else []⟩

/-- Collection already holding the record of `a.txt` (its id is the hash of
its relative path), as left by a previous scan of the same tree. -/
def c0 : CollectionState := [recordOf f0]

/-! ### Store lemmas -/

theorem mem_getIds_iff {c : CollectionState} {i : String} :
    i ∈ getIds c ↔ ∃ r ∈ c, r.1 = i := by
  simp [getIds, List.mem_map]

theorem any_fst_iff {c : CollectionState} {i : String} :
    (c.any fun r => r.1 = i) = true ↔ i ∈ getIds c := by
  simp [List.any_eq_true, mem_getIds_iff]

theorem getById_eq_none_iff {c : CollectionState} {i : String} :
    getById c i = none ↔ i ∉ getIds c := by
  simp [getById, List.find?_eq_none, mem_getIds_iff]
  constructor
  · intro h x m hm
    exact h i x m hm rfl
  · intro h a b m hm he
    subst he
    exact h b m hm

theorem getIds_upsertOne (c : CollectionState) (i doc : String) (m : Metadata) :
    getIds (upsertOne c i doc m) =
      if i ∈ getIds c then getIds c else getIds c ++ [i] := by
  unfold upsertOne
  by_cases h : i ∈ getIds c
  · rw [if_pos (any_fst_iff.mpr h), if_pos h]
    unfold getIds
    rw [List.map_map]
    apply List.map_congr_left
    intro r _
    by_cases hr : r.1 = i
    · simp [hr]
    · simp [hr]
  · rw [if_neg (fun hc => h (any_fst_iff.mp hc)), if_neg h]
    simp [getIds]

theorem mem_getIds_upsertOne {c : CollectionState} {j : String} (i doc : String)
    (m : Metadata) (h : j ∈ getIds c) : j ∈ getIds (upsertOne c i doc m) := by
  rw [getIds_upsertOne]
  split
  · exact h
  · exact List.mem_append_left _ h

theorem self_mem_getIds_upsertOne (c : CollectionState) (i doc : String)
    (m : Metadata) : i ∈ getIds (upsertOne c i doc m) := by
  rw [getIds_upsertOne]
  split
  · assumption
  · exact List.mem_append_right _ (by simp)

theorem getIds_upsertOne_of_mem {c : CollectionState} {i : String} (doc : String)
    (m : Metadata) (h : i ∈ getIds c) : getIds (upsertOne c i doc m) = getIds c := by
  rw [getIds_upsertOne, if_pos h]

theorem upsert_cons (c : CollectionState) (r : String × String × Metadata)
    (t : List (String × String × Metadata)) :
    upsert c (r :: t) = upsert (upsertOne c r.1 r.2.1 r.2.2) t := rfl

theorem mem_getIds_upsert {j : String}
    (rows : List (String × String × Metadata)) :
    ∀ {c : CollectionState}, j ∈ getIds c → j ∈ getIds (upsert c rows) := by
  induction rows with
  | nil => exact fun h => h
  | cons r t ih =>
      intro c h
      rw [upsert_cons]
      exact ih (mem_getIds_upsertOne _ _ _ h)

theorem row_mem_getIds_upsert {row : String × String × Metadata}
    {rows : List (String × String × Metadata)} (h : row ∈ rows) :
    ∀ (c : CollectionState), row.1 ∈ getIds (upsert c rows) := by
  induction rows with
  | nil => cases h
  | cons r t ih =>
      intro c
      rw [upsert_cons]
      rcases List.mem_cons.mp h with he | ht
      · subst he
        exact mem_getIds_upsert t (self_mem_getIds_upsertOne _ _ _ _)
      · exact ih ht _

theorem getIds_upsert_of_forall_mem {rows : List (String × String × Metadata)} :
    ∀ {c : CollectionState}, (∀ row ∈ rows, row.1 ∈ getIds c) →
      getIds (upsert c rows) = getIds c := by
  induction rows with
  | nil => exact fun _ => rfl
  | cons r t ih =>
      intro c h
      rw [upsert_cons]
      have h1 : r.1 ∈ getIds c := h r (List.mem_cons_self r t)
      have e : getIds (upsertOne c r.1 r.2.1 r.2.2) = getIds c :=
        getIds_upsertOne_of_mem _ _ h1
      rw [ih (fun row hr => by rw [e]; exact h row (List.mem_cons_of_mem _ hr)), e]

theorem mem_getIds_upsert_cases {j : String}
    {rows : List (String × String × Metadata)} :
    ∀ {c : CollectionState}, j ∈ getIds (upsert c rows) →
      j ∈ getIds c ∨ j ∈ rows.map (·.1) := by
  induction rows with
  | nil => exact fun h => Or.inl h
  | cons r t ih =>
      intro c h
      rw [upsert_cons] at h
      rcases ih h with h1 | h1
      · rw [getIds_upsertOne] at h1
        split at h1
        · exact Or.inl h1
        · rcases List.mem_append.mp h1 with h2 | h2
          · exact Or.inl h2
          · exact Or.inr (by simp at h2; simp [h2])
      · exact Or.inr (List.mem_cons_of_mem _ h1)

theorem deleteIds_getIds_self (c : CollectionState) : deleteIds c (getIds c) = [] := by
  unfold deleteIds
  rw [List.filter_eq_nil_iff]
  intro r hr
  simp [List.contains, mem_getIds_iff]
  exact ⟨r.2.1, r.2.2, hr⟩

theorem length_getIds (c : CollectionState) : (getIds c).length = c.length := by
  simp [getIds]

/-! ### String lemmas -/

theorem mem_dropWhile_of_mem {p : Char → Bool} {c : Char} :
    ∀ {l : List Char}, c ∈ l → p c = false → c ∈ l.dropWhile p := by
  intro l
  induction l with
  | nil => intro h _; cases h
  | cons a t ih =>
      intro hm hp
      by_cases ha : p a = true
      · rw [List.dropWhile_cons_of_pos ha]
        rcases List.mem_cons.mp hm with he | ht
        · subst he; rw [hp] at ha; cases ha
        · exact ih ht hp
      · rw [List.dropWhile_cons_of_neg ha]
        exact hm

theorem mem_stripChars_of_mem {c : Char} {l : List Char} (h : c ∈ l)
    (hp : isPySpace c = false) : c ∈ stripChars l := by
  unfold stripChars
  exact List.mem_reverse.mpr
    (mem_dropWhile_of_mem (List.mem_reverse.mpr (mem_dropWhile_of_mem h hp)) hp)

theorem pyStrip_join_ne_empty (root rel : String) :
    pyStrip (root ++ "/" ++ rel) ≠ "" := by
  intro h
  have hd : stripChars (root ++ "/" ++ rel).data = [] := congrArg String.data h
  have hm : '/' ∈ (root ++ "/" ++ rel).data := by
    rw [String.data_append, String.data_append]
    exact List.mem_append_left _ (List.mem_append_right _ (by simp [String.data]))
  have := mem_stripChars_of_mem hm (by decide)
  rw [hd] at this
  cases this

theorem afterLastDot_eq_none_iff : ∀ {l : List Char}, afterLastDot l = none ↔ '.' ∉ l := by
  intro l
  induction l with
  | nil => simp [afterLastDot]
  | cons c t ih =>
      simp only [afterLastDot]
      cases h : afterLastDot t with
      | some s =>
          have ht : '.' ∈ t := by
            by_contra hc
            rw [← ih] at hc
            rw [h] at hc
            cases hc
          simp [List.mem_cons, ht]
      | none =>
          have ht : '.' ∉ t := ih.mp h
          by_cases hc : c = '.'
          · subst hc
            simp
          · show (if c = '.' then some t else none) = none ↔ '.' ∉ c :: t
            rw [if_neg hc]
            simp only [List.mem_cons]
            constructor
            · rintro - (he | hm)
              · exact hc he.symm
              · exact ht hm
            · intro _
              trivial

theorem not_dot_mem_afterLastDot :
    ∀ {l s : List Char}, afterLastDot l = some s → '.' ∉ s := by
  intro l
  induction l with
  | nil => intro s h; cases h
  | cons c t ih =>
      intro s h
      simp only [afterLastDot] at h
      cases ht : afterLastDot t with
      | some s2 =>
          rw [ht] at h
          cases h
          exact ih ht
      | none =>
          rw [ht] at h
          by_cases hc : c = '.'
          · rw [if_pos hc] at h
            cases h
            exact afterLastDot_eq_none_iff.mp ht
          · rw [if_neg hc] at h
            cases h

theorem pySuffix_shape {name : List Char} (h : pySuffix name ≠ []) :
    ∃ s, afterLastDot name = some s ∧ pySuffix name = '.' :: s ∧ '.' ∉ s := by
  cases ha : afterLastDot name with
  | none =>
      exfalso
      apply h
      unfold pySuffix
      rw [ha]
  | some s =>
      refine ⟨s, rfl, ?_, not_dot_mem_afterLastDot ha⟩
      unfold pySuffix at h ⊢
      rw [ha] at h ⊢
      have h2 : (if 0 < name.length - s.length - 1 ∧ s ≠ [] then '.' :: s else []) ≠ [] := h
      show (if 0 < name.length - s.length - 1 ∧ s ≠ [] then '.' :: s else []) = '.' :: s
      by_cases hc : 0 < name.length - s.length - 1 ∧ s ≠ []
      · rw [if_pos hc]
      · rw [if_neg hc] at h2
        exact absurd rfl h2

theorem lstripDot_of_not_dot_mem : ∀ {s : List Char}, '.' ∉ s → lstripDot s = s := by
  intro s h
  cases s with
  | nil => rfl
  | cons c t =>
      have hc : c ≠ '.' := fun he => h (he ▸ List.mem_cons_self c t)
      simp [lstripDot, fun he : c = '.' => hc he]

theorem limitFromForm_bounds (raw : Option String) :
    1 ≤ limitFromForm raw ∧ limitFromForm raw ≤ 100 := by
  have e : ∀ (o : Option Int),
      (1 : Int) ≤ (match o with | some n => max 1 (min 100 n) | none => 10) ∧
      (match o with | some n => max 1 (min 100 n) | none => 10) ≤ 100 := by
    intro o
    cases o with
    | none => exact ⟨by decide, by decide⟩
    | some n => exact ⟨le_max_left 1 _, max_le (by norm_num) (min_le_left _ _)⟩
  exact e (pyInt? (pyStrip (pyOr raw "10")))

/-- The scores that `search_file_names` extracts from a zipped query result
form a sublist (in fact a prefix) of the distances list. -/
theorem zip_snd_fst_sublist :
    ∀ (a : List String) (b : List Int) (m : List Metadata),
      List.Sublist ((a.zip (b.zip m)).map (fun p => p.2.1)) b := by
  intro a
  induction a with
  | nil => intro b m; exact List.nil_sublist b
  | cons x a2 ih =>
      intro b m
      cases b with
      | nil => exact List.nil_sublist []
      | cons y b2 =>
          cases m with
          | nil => exact List.nil_sublist (y :: b2)
          | cons z m2 => exact List.Sublist.cons₂ y (ih b2 m2)

/-! ### Claim theorems -/

/-- C4: the record id is a pure, deterministic function of the file's
canonical relative path — the SHA-1 hex digest of its UTF-8 encoding —
so any two scans (runs/processes) over files at the same relative paths
produce identical ids, whatever the file names. -/
theorem spec_C4 :
    (∀ f g : FileEntry, rel_path f = rel_path g → (recordOf f).1 = (recordOf g).1) ∧
    (∀ files₁ files₂ : List FileEntry, files₁.map rel_path = files₂.map rel_path →
      (files₁.map recordOf).map (·.1) = (files₂.map recordOf).map (·.1)) := by
  constructor
  · intro f g h
    show item_id (rel_path f) = item_id (rel_path g)
    rw [h]
  · intro l₁
    induction l₁ with
    | nil =>
        intro l₂ h
        cases l₂ with
        | nil => rfl
        | cons g t => simp at h
    | cons f t ih =>
        intro l₂ h
        cases l₂ with
        | nil => simp at h
        | cons g t₂ =>
            simp only [List.map_cons, List.cons.injEq] at h ⊢
            refine ⟨?_, ih t₂ h.2⟩
            show item_id (rel_path f) = item_id (rel_path g)
            rw [h.1]

theorem spec_C4_witness :
    (recordOf ⟨"x.txt", "sub\\x.txt"⟩).1 = (recordOf ⟨"y.txt", "sub\\x.txt"⟩).1 :=
  spec_C4.1 ⟨"x.txt", "sub\\x.txt"⟩ ⟨"y.txt", "sub\\x.txt"⟩ rfl

/-- C8: `index_file_names` resolves the directory first and raises the
directory-not-found `ValueError` when the resolved path does not exist or is
not a directory; the error return carries no collection update (no clear or
upsert happens). -/
theorem spec_C8 (fs : FSModel) (c : CollectionState) (d : String) (r cf : Bool)
    (h : fs.pathExists (fs.resolve d) = false ∨ fs.isDir (fs.resolve d) = false) :
    index_file_names fs c d r cf =
      .error ("Directory does not exist: " ++ fs.resolve d) := by
  simp only [index_file_names]
  rw [if_pos h]

theorem spec_C8_witness :
    index_file_names fsN [] "/nope" false true =
      .error ("Directory does not exist: " ++ fsN.resolve "/nope") :=
  spec_C8 fsN [] "/nope" false true (Or.inl rfl)

/-- C9: a file name without a dot-separated suffix gets the empty stored
extension and a document text ending in the bare token "extension"; a
non-empty suffix is stored with its single leading dot stripped (the stored
extension never contains a dot). -/
theorem spec_C9 (f : FileEntry) :
    (pySuffix f.name.data = [] →
      (recordOf f).2.2.extension = "" ∧
      (recordOf f).2.1 =
        "file name " ++ f.name ++ " path " ++ rel_path f ++ " extension ") ∧
    (pySuffix f.name.data ≠ [] →
      pySuffix f.name.data = '.' :: ((recordOf f).2.2.extension).data ∧
      '.' ∉ ((recordOf f).2.2.extension).data) := by
  constructor
  · intro h
    have he : extensionOf f.name = "" := by
      unfold extensionOf
      rw [h]
      rfl
    refine ⟨he, ?_⟩
    show content f = _
    unfold content
    rw [he, String.append_empty]
  · intro h
    obtain ⟨s, _, hs, hd⟩ := pySuffix_shape h
    have he : ((recordOf f).2.2.extension).data = s := by
      show lstripDot (pySuffix f.name.data) = s
      rw [hs]
      have e1 : lstripDot ('.' :: s) = lstripDot s := by simp [lstripDot]
      rw [e1]
      exact lstripDot_of_not_dot_mem hd
    rw [he]
    exact ⟨hs, hd⟩

theorem spec_C9_witness :
    (recordOf ⟨"README", "README"⟩).2.2.extension = "" ∧
    (recordOf ⟨"README", "README"⟩).2.1 =
      "file name " ++ "README" ++ " path " ++ rel_path ⟨"README", "README"⟩
        ++ " extension " :=
  (spec_C9 ⟨"README", "README"⟩).1 (by decide)

/-- C10: a missing, empty, or unparseable web-form limit silently becomes the
default 10, and the search action still succeeds (no invalid-argument error is
reported for the limit). -/
theorem spec_C10 :
    limitFromForm none = 10 ∧
    (∀ s : String, pyInt? (pyStrip (pyOr (some s) "10")) = none →
      limitFromForm (some s) = 10) ∧
    (∀ (queryFn : CollQueryFn) (qv lv : Option String),
      pyStrip (qv.getD "") ≠ "" →
      webSearch queryFn qv lv =
        .ok (search_file_names queryFn (pyStrip (qv.getD "")) (limitFromForm lv))) := by
  refine ⟨by decide, ?_, ?_⟩
  · intro s h
    have e : limitFromForm (some s) =
        (match pyInt? (pyStrip (pyOr (some s) "10")) with
         | some n => max 1 (min 100 n)
         | none => 10) := rfl
    rw [e, h]
  · intro queryFn qv lv hq
    simp only [webSearch]
    rw [if_neg hq]

theorem spec_C10_witness :
    limitFromForm (some "abc") = 10 ∧
    webSearch qB (some "doc") (some "abc") =
      .ok (search_file_names qB (pyStrip ((some "doc").getD ""))
        (limitFromForm (some "abc"))) :=
  ⟨spec_C10.2.1 "abc" (by decide),
   spec_C10.2.2 qB (some "doc") (some "abc") (by decide)⟩

/-! ### Resolver reduction lemmas -/

theorem open_file_none (fs : FSModel) (root : String) {c : CollectionState}
    {doc_id : String} (hm : getById c doc_id = none) :
    open_file fs root c doc_id = .notFound "Indexed file not found." := by
  unfold open_file get_hit_by_id
  rw [hm]
  rfl

theorem open_file_some (fs : FSModel) (root : String) {c : CollectionState}
    {doc_id : String} {m : Metadata} (hm : getById c doc_id = some m) :
    open_file fs root c doc_id =
      if pyStrip (root ++ "/" ++ m.relative_path) = ""
          ∨ fs.pathExists (pyStrip (root ++ "/" ++ m.relative_path)) = false
          ∨ fs.isFile (pyStrip (root ++ "/" ++ m.relative_path)) = false then
        .notFound "File path no longer exists."
      else
        .sendFile (pyStrip (root ++ "/" ++ m.relative_path)) := by
  unfold open_file get_hit_by_id
  rw [hm]
  rfl

/-- C1: the open endpoint looks the id up in the collection; a missing record
404s as "Indexed file not found." (NotFound); a record whose file is gone or
not a regular file 404s as "File path no longer exists." (StalePath); a
record whose file exists as a regular file yields the file handle. -/
theorem spec_C1 (fs : FSModel) (root : String) (c : CollectionState)
    (doc_id : String) :
    (getById c doc_id = none →
      open_file fs root c doc_id = .notFound "Indexed file not found.") ∧
    (∀ m : Metadata, getById c doc_id = some m →
      (fs.pathExists (pyStrip (root ++ "/" ++ m.relative_path)) = false ∨
          fs.isFile (pyStrip (root ++ "/" ++ m.relative_path)) = false →
        open_file fs root c doc_id = .notFound "File path no longer exists.") ∧
      (fs.pathExists (pyStrip (root ++ "/" ++ m.relative_path)) = true →
        fs.isFile (pyStrip (root ++ "/" ++ m.relative_path)) = true →
        open_file fs root c doc_id =
          .sendFile (pyStrip (root ++ "/" ++ m.relative_path)))) := by
  constructor
  · exact open_file_none fs root
  · intro m hm
    constructor
    · intro hfail
      rw [open_file_some fs root hm,
        if_pos (hfail.elim (fun h1 => Or.inr (Or.inl h1)) (fun h2 => Or.inr (Or.inr h2)))]
    · intro h1 h2
      have hc : ¬(pyStrip (root ++ "/" ++ m.relative_path) = ""
          ∨ fs.pathExists (pyStrip (root ++ "/" ++ m.relative_path)) = false
          ∨ fs.isFile (pyStrip (root ++ "/" ++ m.relative_path)) = false) := by
        rintro (h3 | h3 | h3)
        · exact pyStrip_join_ne_empty root m.relative_path h3
        · rw [h1] at h3; cases h3
        · rw [h2] at h3; cases h3
      rw [open_file_some fs root hm, if_neg hc]

theorem spec_C1_witness :
    open_file fsW "/r" cW "x" = .sendFile (pyStrip ("/r" ++ "/" ++ "a.txt")) :=
  ((spec_C1 fsW "/r" cW "x").2 ⟨"a.txt", "a.txt", "txt"⟩ (by decide)).2
    (by decide) (by decide)

/-- C2 (counterexample): a stored relative path containing a `..` traversal
segment still yields a file handle — no containment-in-root check exists on
the open endpoint. -/
theorem spec_C2_counterexample : ¬ resolveVerifiesContainment := by
  intro h
  have hv := h fs1 "/data" c1 "x" "/data/../secret" ⟨"secret", "../secret", ""⟩
    (by decide) (by decide)
  exact absurd hv.2.2 (by decide)

/-- C2 (amended): before a handle is handed back, the resolved path is
verified to exist and to refer to a regular file; the path is the stored
relative path joined under the supplied root, but no check prevents it from
escaping that root. -/
theorem spec_C2_amended (fs : FSModel) (root : String) (c : CollectionState)
    (doc_id p : String) (h : open_file fs root c doc_id = .sendFile p) :
    fs.pathExists p = true ∧ fs.isFile p = true ∧
      ∃ m, getById c doc_id = some m ∧
        p = pyStrip (root ++ "/" ++ m.relative_path) := by
  cases hg : getById c doc_id with
  | none =>
      rw [open_file_none fs root hg] at h
      cases h
  | some m =>
      rw [open_file_some fs root hg] at h
      cases hex : fs.pathExists (pyStrip (root ++ "/" ++ m.relative_path)) with
      | false =>
          rw [if_pos (Or.inr (Or.inl hex))] at h
          cases h
      | true =>
          cases hfi : fs.isFile (pyStrip (root ++ "/" ++ m.relative_path)) with
          | false =>
              rw [if_pos (Or.inr (Or.inr hfi))] at h
              cases h
          | true =>
              have hc : ¬(pyStrip (root ++ "/" ++ m.relative_path) = ""
                  ∨ fs.pathExists (pyStrip (root ++ "/" ++ m.relative_path)) = false
                  ∨ fs.isFile (pyStrip (root ++ "/" ++ m.relative_path)) = false) := by
                rintro (h3 | h3 | h3)
                · exact pyStrip_join_ne_empty root m.relative_path h3
                · rw [hex] at h3; cases h3
                · rw [hfi] at h3; cases h3
              rw [if_neg hc] at h
              cases h
              exact ⟨hex, hfi, m, rfl, rfl⟩

theorem spec_C2_witness :
    fsW.pathExists (pyStrip ("/r" ++ "/" ++ "a.txt")) = true ∧
    fsW.isFile (pyStrip ("/r" ++ "/" ++ "a.txt")) = true ∧
    ∃ m, getById cW "x" = some m ∧
      pyStrip ("/r" ++ "/" ++ "a.txt") = pyStrip ("/r" ++ "/" ++ m.relative_path) :=
  spec_C2_amended fsW "/r" cW "x" (pyStrip ("/r" ++ "/" ++ "a.txt")) (by decide)

/-- C3 (counterexample): `search_file_names` neither rejects an empty query
before consulting the store nor clamps the limit: two stores that agree on
every nonempty query text (hence on every clamped limit) give different
search results at query "" and limit 0, so the empty query and the raw limit
reach the store. -/
theorem spec_C3_counterexample : ¬ searchValidatesAndClamps := by
  intro h
  have he : ∀ s k, s ≠ "" → 1 ≤ k → k ≤ 100 → qA s k = qB s k := by
    intro s k hs _ _
    have hns : ¬(s = "" ∧ k = 0) := fun hc => hs hc.1
    simp [qA, qB, hns]
  exact absurd (h qA qB "" 0 he) (by decide)

/-- C3 (amended): the web route's search action rejects an empty (stripped)
query before any collection query, and otherwise calls `search_file_names`
with the form limit already clamped into 1..100; `search_file_names` itself
performs no validation. -/
theorem spec_C3 (queryFn : CollQueryFn) (qv lv : Option String) :
    (pyStrip (qv.getD "") = "" →
      webSearch queryFn qv lv = .error "Query is required for search.") ∧
    (pyStrip (qv.getD "") ≠ "" →
      webSearch queryFn qv lv =
        .ok (search_file_names queryFn (pyStrip (qv.getD "")) (limitFromForm lv)) ∧
      1 ≤ limitFromForm lv ∧ limitFromForm lv ≤ 100) := by
  constructor
  · intro hq
    simp only [webSearch]
    rw [if_pos hq]
  · intro hq
    refine ⟨?_, limitFromForm_bounds lv⟩
    simp only [webSearch]
    rw [if_neg hq]

theorem spec_C3_witness :
    webSearch qB (some "doc") (some "7") =
      .ok (search_file_names qB (pyStrip ((some "doc").getD ""))
        (limitFromForm (some "7"))) ∧
    1 ≤ limitFromForm (some "7") ∧ limitFromForm (some "7") ≤ 100 :=
  (spec_C3 qB (some "doc") (some "7")).2 (by decide)

/-- C7: provided the store's query honors its contract (distances ascending,
at most the requested number of ids), the hits returned by
`search_file_names` are sorted by non-decreasing score and number at most
the limit. -/
theorem spec_C7 (query : CollQueryFn) (q : String) (limit : Int)
    (hsort : List.Sorted (· ≤ ·) (query q limit).distances)
    (hlen : (query q limit).ids.length ≤ limit.toNat) :
    List.Sorted (· ≤ ·) ((search_file_names query q limit).map (·.score)) ∧
    (search_file_names query q limit).length ≤ limit.toNat := by
  constructor
  · show List.Sorted (· ≤ ·)
      ((((query q limit).ids.zip
        ((query q limit).distances.zip (query q limit).metadatas)).map
          (fun t => (⟨t.1, t.2.1, t.2.2.file_name, t.2.2.relative_path,
            t.2.2.extension⟩ : Hit))).map (·.score))
    rw [List.map_map]
    exact List.Pairwise.sublist
      (zip_snd_fst_sublist (query q limit).ids (query q limit).distances
        (query q limit).metadatas) hsort
  · show (((query q limit).ids.zip
      ((query q limit).distances.zip (query q limit).metadatas)).map
        (fun t => (⟨t.1, t.2.1, t.2.2.file_name, t.2.2.relative_path,
          t.2.2.extension⟩ : Hit))).length ≤ limit.toNat
    rw [List.length_map, List.length_zip]
    exact le_trans (Nat.min_le_left _ _) hlen

theorem spec_C7_witness :
    List.Sorted (· ≤ ·) ((search_file_names qW "doc" 2).map (·.score)) ∧
    (search_file_names qW "doc" 2).length ≤ (2 : Int).toNat :=
  spec_C7 qW "doc" 2 (by decide) (by decide)

/-! ### Indexer reduction lemmas -/

theorem index_ok_noclear (fs : FSModel) (c : CollectionState) (d : String)
    (r : Bool) (hex : fs.pathExists (fs.resolve d) = true)
    (hdir : fs.isDir (fs.resolve d) = true) :
    index_file_names fs c d r false =
      .ok (if (fs.listFiles (fs.resolve d) r).map recordOf ≠ [] then
             upsert c ((fs.listFiles (fs.resolve d) r).map recordOf)
           else c,
           ((fs.listFiles (fs.resolve d) r).map recordOf).length) := by
  have hc : ¬(fs.pathExists (fs.resolve d) = false ∨ fs.isDir (fs.resolve d) = false) := by
    rintro (h | h)
    · rw [hex] at h; cases h
    · rw [hdir] at h; cases h
  simp only [index_file_names]
  rw [if_neg hc]
  rfl

theorem index_ok_clear (fs : FSModel) (c : CollectionState) (d : String)
    (r : Bool) (hex : fs.pathExists (fs.resolve d) = true)
    (hdir : fs.isDir (fs.resolve d) = true) :
    index_file_names fs c d r true =
      .ok (if (fs.listFiles (fs.resolve d) r).map recordOf ≠ [] then
             upsert (if getIds c ≠ [] then deleteIds c (getIds c) else c)
               ((fs.listFiles (fs.resolve d) r).map recordOf)
           else (if getIds c ≠ [] then deleteIds c (getIds c) else c),
           ((fs.listFiles (fs.resolve d) r).map recordOf).length) := by
  have hc : ¬(fs.pathExists (fs.resolve d) = false ∨ fs.isDir (fs.resolve d) = false) := by
    rintro (h | h)
    · rw [hex] at h; cases h
    · rw [hdir] at h; cases h
  simp only [index_file_names]
  rw [if_neg hc]
  rfl

/-- C5: re-indexing the same unchanged directory without clear_first is
idempotent: the second run reports the same count, every record is
overwritten in place rather than duplicated (the id list is unchanged), and
the collection size does not grow. -/
theorem spec_C5 (fs : FSModel) (c : CollectionState) (d : String) (r : Bool)
    (c₁ c₂ : CollectionState) (n₁ n₂ : Nat)
    (h₁ : index_file_names fs c d r false = .ok (c₁, n₁))
    (h₂ : index_file_names fs c₁ d r false = .ok (c₂, n₂)) :
    n₂ = n₁ ∧ getIds c₂ = getIds c₁ ∧ c₂.length = c₁.length := by
  cases hex : fs.pathExists (fs.resolve d) with
  | false =>
      simp only [index_file_names] at h₁
      rw [if_pos (Or.inl hex)] at h₁
      cases h₁
  | true =>
  cases hdir : fs.isDir (fs.resolve d) with
  | false =>
      simp only [index_file_names] at h₁
      rw [if_pos (Or.inr hdir)] at h₁
      cases h₁
  | true =>
  rw [index_ok_noclear fs c d r hex hdir] at h₁
  rw [index_ok_noclear fs c₁ d r hex hdir] at h₂
  rw [Except.ok.injEq, Prod.mk.injEq] at h₁ h₂
  obtain ⟨hc₁, hn₁⟩ := h₁
  obtain ⟨hc₂, hn₂⟩ := h₂
  by_cases hr : (fs.listFiles (fs.resolve d) r).map recordOf ≠ []
  · rw [if_pos hr] at hc₁ hc₂
    subst hc₁
    subst hc₂
    have e : getIds (upsert (upsert c ((fs.listFiles (fs.resolve d) r).map recordOf))
        ((fs.listFiles (fs.resolve d) r).map recordOf)) =
        getIds (upsert c ((fs.listFiles (fs.resolve d) r).map recordOf)) :=
      getIds_upsert_of_forall_mem (fun row hrow => row_mem_getIds_upsert hrow c)
    refine ⟨hn₂ ▸ hn₁ ▸ rfl, e, ?_⟩
    rw [← length_getIds (upsert (upsert c ((fs.listFiles (fs.resolve d) r).map recordOf))
        ((fs.listFiles (fs.resolve d) r).map recordOf)),
      ← length_getIds (upsert c ((fs.listFiles (fs.resolve d) r).map recordOf)), e]
  · rw [if_neg hr] at hc₁ hc₂
    subst hc₁
    subst hc₂
    exact ⟨hn₂ ▸ hn₁ ▸ rfl, rfl, rfl⟩

theorem spec_C5_witness :
    (0 : Nat) = 0 ∧ getIds [] = getIds [] ∧ ([] : CollectionState).length = ([] : CollectionState).length :=
  spec_C5 fsE [] "/e" false [] [] 0 0 rfl rfl

/-- C6 (amended): with clear_first, every id present beforehand is deleted
before the scan's batch is upserted, so afterwards a get of any pre-existing
id that the new scan does not itself produce returns nothing, and every file
found by the new scan is present. -/
theorem spec_C6 (fs : FSModel) (c : CollectionState) (d : String) (r : Bool)
    (c' : CollectionState) (n : Nat)
    (h : index_file_names fs c d r true = .ok (c', n)) :
    (∀ i, i ∈ getIds c →
      i ∉ ((fs.listFiles (fs.resolve d) r).map recordOf).map (·.1) →
      getById c' i = none) ∧
    (∀ f ∈ fs.listFiles (fs.resolve d) r,
      getById c' (item_id (rel_path f)) ≠ none) := by
  cases hex : fs.pathExists (fs.resolve d) with
  | false =>
      simp only [index_file_names] at h
      rw [if_pos (Or.inl hex)] at h
      cases h
  | true =>
  cases hdir : fs.isDir (fs.resolve d) with
  | false =>
      simp only [index_file_names] at h
      rw [if_pos (Or.inr hdir)] at h
      cases h
  | true =>
  rw [index_ok_clear fs c d r hex hdir] at h
  rw [Except.ok.injEq, Prod.mk.injEq] at h
  obtain ⟨hc', _⟩ := h
  have hclear : getIds (if getIds c ≠ [] then deleteIds c (getIds c) else c) = [] := by
    by_cases hg : getIds c ≠ []
    · rw [if_pos hg, deleteIds_getIds_self]
      rfl
    · rw [if_neg hg]
      exact not_not.mp hg
  constructor
  · intro i hic hinew
    rw [getById_eq_none_iff]
    intro hmem
    rw [← hc'] at hmem
    by_cases hr : (fs.listFiles (fs.resolve d) r).map recordOf ≠ []
    · rw [if_pos hr] at hmem
      rcases mem_getIds_upsert_cases hmem with h1 | h1
      · rw [hclear] at h1
        cases h1
      · exact hinew h1
    · rw [if_neg hr] at hmem
      rw [hclear] at hmem
      cases hmem
  · intro f hf
    rw [Ne, getById_eq_none_iff, not_not, ← hc']
    have hfr : recordOf f ∈ (fs.listFiles (fs.resolve d) r).map recordOf :=
      List.mem_map_of_mem recordOf hf
    have hr : (fs.listFiles (fs.resolve d) r).map recordOf ≠ [] := by
      intro he
      rw [he] at hfr
      cases hfr
    rw [if_pos hr]
    exact row_mem_getIds_upsert hfr _

/-- C6 (counterexample to the claim as stated): clearing then rescanning the
same tree re-creates the same id, so a get of that pre-existing id after the
call returns a record, not nothing. -/
theorem spec_C6_counterexample :
    index_file_names fs0 c0 "/d" true true = .ok ([recordOf f0], 1) ∧
    item_id (rel_path f0) ∈ getIds c0 ∧
    getById [recordOf f0] (item_id (rel_path f0)) ≠ none := by
  refine ⟨?_, ?_, ?_⟩
  · rw [index_ok_clear fs0 c0 "/d" true rfl rfl]
    rw [show (fs0.listFiles (fs0.resolve "/d") true).map recordOf = [recordOf f0] from rfl]
    rw [if_pos (show ([recordOf f0] : List (String × String × Metadata)) ≠ [] from
      List.cons_ne_nil _ _)]
    rw [if_pos (show getIds c0 ≠ [] from List.cons_ne_nil _ _)]
    rw [deleteIds_getIds_self]
    rfl
  · exact List.mem_cons_self _ _
  · rw [Ne, getById_eq_none_iff, not_not]
    exact List.mem_cons_self _ _

theorem spec_C6_witness :
    (∀ i, i ∈ getIds ([] : CollectionState) →
      i ∉ ((fsE.listFiles (fsE.resolve "/e") false).map recordOf).map (·.1) →
      getById [] i = none) ∧
    (∀ f ∈ fsE.listFiles (fsE.resolve "/e") false,
      getById [] (item_id (rel_path f)) ≠ none) :=
  spec_C6 fsE [] "/e" false [] 0 rfl

end FileNameSearch
